import Mathlib

/-!
Verification development for the scrudge_orm query-construction, manager and
prefetch engine.  Each definition is a shallow embedding of the corresponding
Python function of the repository (file and symbol named in its doc comment).
-/

set_option linter.unusedVariables false

namespace ScrudgeOrm

/-! ## Errors raised by the query-construction engine.

The Python code signals build-time failures with distinct exception kinds:
`ValueError("Unsupported operator - ...")` in `SupportedOperator.get_operator`,
a `KeyError` when `QuerySet.eval_operator` looks up an operator missing from
both comparison dictionaries, and `ValueError("Column ... not defined")` in
`QuerySet._get_column_by_name`.  We keep them apart in one error type. -/

inductive QueryError where
  | unsupportedOperator (name : String)
  | keyError (name : String)
  | columnNotDefined (name : String)
  | valueError (msg : String)
  deriving DecidableEq, Repr

/-! ## `scrudge_orm/query/conditions.py` -/

/-- `SupportedOperator` enum of `conditions.py` (all 19 members, including
`between`, which the enum declares even though `QuerySet` implements no
comparison for it). -/
inductive SupportedOperator where
  | eq | neq | ge | gt | lt | le | between
  | in_ | not_in | is_ | is_not
  | like | ilike | not_like | not_ilike
  | startswith | endswith | contains | concat
  deriving DecidableEq, Repr

/-- The `(value, member)` pairs of the `SupportedOperator` string enum: Python
`cls(value)` is a lookup of `value` among the members' string values. -/
def supportedOperatorValues : List (String × SupportedOperator) :=
  [("eq", .eq), ("neq", .neq), ("ge", .ge), ("gt", .gt), ("lt", .lt), ("le", .le),
   ("between", .between), ("in", .in_), ("not_in", .not_in), ("is", .is_),
   ("is_not", .is_not), ("like", .like), ("ilike", .ilike), ("not_like", .not_like),
   ("not_ilike", .not_ilike), ("startswith", .startswith), ("endswith", .endswith),
   ("contains", .contains), ("concat", .concat)]

/-- Plain associative lookup (first match) used to model Python enum-by-value
and dictionary lookups. -/
def assocFind {κ α : Type} [DecidableEq κ] (key : κ) : List (κ × α) → Option α
  | [] => none
  | (k, v) :: rest => if k = key then some v else assocFind key rest

/-- `SupportedOperator.get_operator` (`conditions.py`): `cls(value)`, turning a
failed enum lookup into the "Unsupported operator" error. -/
def SupportedOperator.get_operator (value : String) : Except QueryError SupportedOperator :=
  match assocFind value supportedOperatorValues with
  | some op => .ok op
  | none => .error (.unsupportedOperator value)

/-- Scalar values stored in columns and used as right-hand sides of
comparisons.  (SQL `NULL` does not occur in the concrete row sets the
condition claims quantify over.) -/
inductive Scalar where
  | int (i : Int)
  | str (s : String)
  deriving DecidableEq, Repr

/-- A value given for a keyword pair: a scalar, a list of scalars (for
`in`/`not_in`), or an `F` column reference with its optional additive
`value_to_sum` offset (`F.__add__` / `F.__sub__` accumulate into it). -/
inductive CondVal where
  | scalar (s : Scalar)
  | list (l : List Scalar)
  | f (column_name : String) (value_to_sum : Option Int)
  deriving DecidableEq, Repr

/-- `BaseCondition` of `conditions.py`: child condition groups plus keyword
`fields_values`.  `isOr` distinguishes `OrCondition` from `AndCondition`. -/
inductive BaseCondition where
  | mk (isOr : Bool) (conditions : List BaseCondition)
      (fields_values : List (String × CondVal))

/-- `AndCondition(**fields_values)` with no nested groups, as built by
`QuerySet.prepare_queryset_parameters` from keyword pairs. -/
def AndCondition (fields_values : List (String × CondVal)) : BaseCondition :=
  .mk false [] fields_values

/-! ## `scrudge_orm/query/queryset.py`: condition parsing -/

/-- The boolean clause tree `QuerySet.parse_expression` hands to SQLAlchemy:
`and_(*args)`, `or_(*args)`, `not_(expr)` and leaf comparisons
`column <op> value` / `column <op> other_column (+ delta)`. -/
inductive SqlExpr where
  | and_ (args : List SqlExpr)
  | or_ (args : List SqlExpr)
  | not_ (e : SqlExpr)
  | comp (op : SupportedOperator) (col : String) (v : CondVal)
  | compCol (op : SupportedOperator) (col : String) (other : String) (delta : Option Int)

/-- The table a `QuerySet` is built over: its column names
(`manager.table.c`).  Annotations are omitted; `_get_column_by_name` falls
back to them before the table columns, and none of the condition claims add
annotations. -/
structure QTable where
  columns : List String
  deriving DecidableEq

/-- `QuerySet.parse_field_name_and_operator`: split the keyword on `"__"`,
the head is the field, element 1 (when present) selects the operator,
default `eq`. -/
def parse_field_name_and_operator (field_name_expression : String) :
    Except QueryError (String × SupportedOperator) :=
  match field_name_expression.splitOn "__" with
  | [] => .error (.valueError "empty field expression")
  | [f] => .ok (f, .eq)
  | f :: o :: _ =>
    match SupportedOperator.get_operator o with
    | .ok op => .ok (f, op)
    | .error e => .error e

/-- The keys of `QuerySet.operator_comparison` (Python `operator` module
comparisons). -/
def operator_comparison : List SupportedOperator := [.eq, .neq, .gt, .ge, .lt, .le]

/-- The keys of `QuerySet.functions_comparison` (SQLAlchemy column methods);
`between` is commented out in the source and hence absent. -/
def functions_comparison : List SupportedOperator :=
  [.in_, .not_in, .is_, .is_not, .like, .ilike, .not_like, .not_ilike,
   .startswith, .endswith, .contains, .concat]

/-- Render an operator name for the `KeyError` raised by a dictionary miss in
`QuerySet.eval_operator`. -/
def SupportedOperator.valueName (op : SupportedOperator) : String :=
  match (supportedOperatorValues.find? (fun p => p.2 = op)) with
  | some p => p.1
  | none => ""

/-- `QuerySet._get_column_by_name` restricted to table columns: unknown names
raise `ValueError("Column ... not defined")` at build time. -/
def get_column_by_name (t : QTable) (column_name : String) : Except QueryError String :=
  if column_name ∈ t.columns then .ok column_name
  else .error (.columnNotDefined column_name)

/-- `QuerySet.eval_operator`: dispatch on `operator_comparison` then
`functions_comparison`; an operator in neither dictionary (only `between`)
raises `KeyError`.  The column name is resolved first, as in the source. -/
def eval_operator (t : QTable) (field_operator : SupportedOperator) (field_name : String)
    (value : CondVal) : Except QueryError SqlExpr := do
  let col ← get_column_by_name t field_name
  if field_operator ∈ operator_comparison ∨ field_operator ∈ functions_comparison then
    .ok (.comp field_operator col value)
  else
    .error (.keyError field_operator.valueName)

/-- The `F` branch of `QuerySet.parse_expression`: resolve the referenced
column, then compare against `column (+ value_to_sum)`. -/
def eval_operator_f (t : QTable) (field_operator : SupportedOperator) (field_name : String)
    (other_column : String) (delta : Option Int) : Except QueryError SqlExpr := do
  let col ← get_column_by_name t field_name
  let other ← get_column_by_name t other_column
  if field_operator ∈ operator_comparison ∨ field_operator ∈ functions_comparison then
    .ok (.compCol field_operator col other delta)
  else
    .error (.keyError field_operator.valueName)

/-- One keyword pair of `QuerySet.parse_expression`'s `fields_values` loop. -/
def parse_field_value (t : QTable) (field_expr : String) (field_value : CondVal) :
    Except QueryError SqlExpr := do
  let (field_name, field_operator) ← parse_field_name_and_operator field_expr
  match field_value with
  | .f column_name value_to_sum =>
    eval_operator_f t field_operator field_name column_name value_to_sum
  | v => eval_operator t field_operator field_name v

/-- The `for field_expr, field_value in condition.fields_values.items()`
loop of `QuerySet.parse_expression`. -/
def parse_fields_values (t : QTable) : List (String × CondVal) → Except QueryError (List SqlExpr)
  | [] => .ok []
  | (k, v) :: rest => do
    let e ← parse_field_value t k v
    let es ← parse_fields_values t rest
    .ok (e :: es)

mutual

/-- `QuerySet.parse_expression`: recursively parse child groups, then the
keyword pairs, and wrap everything in `and_` / `or_`. -/
def parse_expression (t : QTable) : BaseCondition → Except QueryError SqlExpr
  | .mk isOr conditions fields_values => do
    let nested ← parse_expression_list t conditions
    let leaves ← parse_fields_values t fields_values
    .ok (if isOr then .or_ (nested ++ leaves) else .and_ (nested ++ leaves))

/-- The `for filter_condition in condition.conditions` loop. -/
def parse_expression_list (t : QTable) : List BaseCondition → Except QueryError (List SqlExpr)
  | [] => .ok []
  | c :: cs => do
    let e ← parse_expression t c
    let es ← parse_expression_list t cs
    .ok (e :: es)

end

/-! ## Evaluation of the compiled predicate over a concrete row

A row assigns a scalar to every column name.  The comparison semantics below
models what the external SQL backend computes for each SQLAlchemy operator on
concrete (non-NULL) data; the condition claims only need that each leaf has
some fixed boolean meaning. -/

/-- A concrete row: a total assignment of scalars to column names. -/
def Row : Type := String → Scalar

/-- Integer comparison used by `gt`/`ge`/`lt`/`le` (false on non-integer
operands, where the backend would reject the query). -/
def scalarCmp (f : Int → Int → Bool) : Scalar → Scalar → Bool
  | .int a, .int b => f a b
  | _, _ => false

/-- String payload of a scalar (used by the LIKE-family operators). -/
def Scalar.asStr : Scalar → String
  | .str s => s
  | .int i => toString i

/-- Substring test standing for SQL `LIKE '%pat%'` (`column.contains`). -/
def strContainsSub (hay pat : String) : Bool :=
  (List.range (hay.length + 1)).any (fun i => pat.isPrefixOf (hay.drop i))

/-- Meaning of one comparison operator applied to the column's value `a` and
the condition value `v`. -/
def evalCompOp (op : SupportedOperator) (a : Scalar) (v : CondVal) : Bool :=
  match op, v with
  | .eq, .scalar b => a = b
  | .neq, .scalar b => ¬(a = b)
  | .gt, .scalar b => scalarCmp (fun x y => x > y) a b
  | .ge, .scalar b => scalarCmp (fun x y => x ≥ y) a b
  | .lt, .scalar b => scalarCmp (fun x y => x < y) a b
  | .le, .scalar b => scalarCmp (fun x y => x ≤ y) a b
  | .in_, .list l => a ∈ l
  | .not_in, .list l => ¬(a ∈ l)
  | .is_, .scalar b => a = b
  | .is_not, .scalar b => ¬(a = b)
  | .like, .scalar b => a.asStr = b.asStr
  | .not_like, .scalar b => ¬(a.asStr = b.asStr)
  | .ilike, .scalar b => a.asStr.toLower = b.asStr.toLower
  | .not_ilike, .scalar b => ¬(a.asStr.toLower = b.asStr.toLower)
  | .startswith, .scalar b => a.asStr.startsWith b.asStr
  | .endswith, .scalar b => a.asStr.endsWith b.asStr
  | .contains, .scalar b => strContainsSub a.asStr b.asStr
  | _, _ => false

/-- `F` column reference with its additive offset, evaluated on a row. -/
def evalFRef (r : Row) (other : String) (delta : Option Int) : Scalar :=
  match r other, delta with
  | .int i, some d => .int (i + d)
  | s, _ => s

mutual

/-- Truth value of a compiled boolean clause on a row: `and_` is the
conjunction of its arguments, `or_` the disjunction, `not_` the negation. -/
def evalSqlExpr (r : Row) : SqlExpr → Bool
  | .and_ args => evalSqlExprAll r args
  | .or_ args => evalSqlExprAny r args
  | .not_ e => !(evalSqlExpr r e)
  | .comp op col v => evalCompOp op (r col) v
  | .compCol op col other delta => evalCompOp op (r col) (.scalar (evalFRef r other delta))

def evalSqlExprAll (r : Row) : List SqlExpr → Bool
  | [] => true
  | e :: es => evalSqlExpr r e && evalSqlExprAll r es

def evalSqlExprAny (r : Row) : List SqlExpr → Bool
  | [] => false
  | e :: es => evalSqlExpr r e || evalSqlExprAny r es

end

/-! ## `QuerySet` condition state: `filter` / `exclude`

`QuerySet` keeps the list `where_conditions`; `compile` combines the entries
with `query.where(*where_conditions)`, i.e. their conjunction. -/

/-- The part of the `QuerySet` state the condition claims are about. -/
structure QSCond where
  where_conditions : List SqlExpr

/-- `QuerySet._update_query_condition`: parse the condition and append it,
wrapped in `not_(...)` when `negative` is set. -/
def update_query_condition (t : QTable) (qs : QSCond) (filter_condition : BaseCondition)
    (negative : Bool) : Except QueryError QSCond :=
  match parse_expression t filter_condition with
  | .error err => .error err
  | .ok e => .ok ⟨qs.where_conditions ++ [if negative then .not_ e else e]⟩

/-- `QuerySet.filter`: `_update_query_condition(..., negative=False)`. -/
def QuerySet.filter (t : QTable) (qs : QSCond) (c : BaseCondition) : Except QueryError QSCond :=
  update_query_condition t qs c false

/-- `QuerySet.exclude`: `_update_query_condition(..., negative=True)`. -/
def QuerySet.exclude (t : QTable) (qs : QSCond) (c : BaseCondition) : Except QueryError QSCond :=
  update_query_condition t qs c true

/-- A row satisfies a `QuerySet`'s compiled statement when it satisfies every
entry of `where_conditions` (the `WHERE` conjunction built by `compile`). -/
def rowMatches (qs : QSCond) (r : Row) : Bool :=
  qs.where_conditions.all (fun e => evalSqlExpr r e)

/-- C2: for every condition `X` built from keyword pairs and every base query,
the predicate appended by `exclude(X)` is the `not_` of the predicate appended
by `filter(X)`; hence on any row satisfying the base query, the `exclude`
result matches exactly when the `filter` result does not. -/
theorem exclude_is_negation_of_filter
    (t : QTable) (qs : QSCond) (X : BaseCondition) (qsF qsE : QSCond) (r : Row)
    (hf : QuerySet.filter t qs X = .ok qsF)
    (he : QuerySet.exclude t qs X = .ok qsE)
    (hbase : rowMatches qs r = true) :
    (∃ e, qsF.where_conditions = qs.where_conditions ++ [e] ∧
          qsE.where_conditions = qs.where_conditions ++ [SqlExpr.not_ e]) ∧
    rowMatches qsE r = !(rowMatches qsF r) := by
  unfold QuerySet.filter update_query_condition at hf
  unfold QuerySet.exclude update_query_condition at he
  cases h : parse_expression t X with
  | error err =>
    rw [h] at hf
    exact absurd hf (by simp)
  | ok e =>
    rw [h] at hf he
    simp only [if_true, Bool.false_eq_true, if_false, Except.ok.injEq] at hf he
    subst hf he
    unfold rowMatches at hbase ⊢
    refine ⟨⟨e, rfl, rfl⟩, ?_⟩
    simp [List.all_append, evalSqlExpr, hbase]

/-- Concrete data for the C2 witness: table with one column `age`, condition
`age__ge = 18`, row with `age = 20`. -/
def c2Table : QTable := ⟨["age"]⟩

def c2Cond : BaseCondition := AndCondition [("age", .scalar (.int 18))]

def c2Row : Row := fun _ => .int 20

def c2FilterExpr : SqlExpr := .and_ [.comp .eq "age" (.scalar (.int 18))]

/-! ## C9: operator-suffix resolution -/

/-- Is a build-time result a success? -/
def exceptOk {ε α : Type} : Except ε α → Bool
  | .ok _ => true
  | .error _ => false

/-- The seventeen non-default operator suffixes the specification lists as
supported. -/
def claimedOperatorSuffixes : List String :=
  ["neq", "gt", "ge", "lt", "le", "in", "not_in", "is", "is_not", "like", "ilike",
   "not_like", "not_ilike", "startswith", "endswith", "contains", "concat"]

def c9Table : QTable := ⟨["f"]⟩

/-- A well-typed argument for each operator (`in`/`not_in` take a list). -/
def c9Arg (s : String) : CondVal :=
  if s = "in" ∨ s = "not_in" then .list [.int 1] else .scalar (.int 1)

/-- `assocFind` misses every key absent from the list. -/
theorem assocFind_eq_none {κ α : Type} [DecidableEq κ] (key : κ) (l : List (κ × α))
    (h : key ∉ l.map Prod.fst) : assocFind key l = none := by
  induction l with
  | nil => rfl
  | cons p rest ih =>
    obtain ⟨k, v⟩ := p
    simp only [List.map_cons, List.mem_cons] at h
    push_neg at h
    have hk : ¬(k = key) := fun hh => h.1 hh.symm
    simp only [assocFind, if_neg hk]
    exact ih h.2

/-- C9 (amended): a `"__"` suffix selects the operator with `eq` as default;
each of the seventeen listed suffixes builds successfully; the extra enum
member `between` is accepted by `get_operator` but condition building fails at
build time with a `KeyError` (not the unsupported-operator error); every
suffix outside the enum's values fails in `get_operator` with the
unsupported-operator error. -/
theorem operator_suffix_resolution :
    (parse_field_name_and_operator "f" = .ok ("f", .eq)) ∧
    (claimedOperatorSuffixes.all (fun s =>
       exceptOk (QuerySet.filter c9Table ⟨[]⟩ (AndCondition [("f" ++ "__" ++ s, c9Arg s)])))
       = true) ∧
    (QuerySet.filter c9Table ⟨[]⟩ (AndCondition [("f__between", .scalar (.int 1))])
       = .error (.keyError "between")) ∧
    (∀ s, s ∉ supportedOperatorValues.map Prod.fst →
       SupportedOperator.get_operator s = .error (.unsupportedOperator s)) := by
  refine ⟨by with_unfolding_all rfl, by with_unfolding_all rfl, by with_unfolding_all rfl, ?_⟩
  intro s hs
  unfold SupportedOperator.get_operator
  rw [assocFind_eq_none s supportedOperatorValues hs]

/-- C9 witness: a suffix outside the enum fails with the unsupported-operator
error. -/
theorem operator_suffix_resolution_witness :
    SupportedOperator.get_operator "zzz" = .error (.unsupportedOperator "zzz") :=
  operator_suffix_resolution.2.2.2 "zzz" (by decide)

/-- C9 counterexample to the claim as stated: the suffix `between` is outside
the claimed supported set, yet building the condition fails with a `KeyError`,
not with the unsupported-operator error. -/
theorem operator_suffix_between_counterexample :
    QuerySet.filter c9Table ⟨[]⟩ (AndCondition [("f__between", .scalar (.int 1))])
      = .error (.keyError "between") ∧
    QuerySet.filter c9Table ⟨[]⟩ (AndCondition [("f__between", .scalar (.int 1))])
      ≠ .error (.unsupportedOperator "between") := by
  have h1 : QuerySet.filter c9Table ⟨[]⟩ (AndCondition [("f__between", .scalar (.int 1))])
      = .error (.keyError "between") := by with_unfolding_all rfl
  refine ⟨h1, ?_⟩
  rw [h1]
  simp

/-! ## `scrudge_orm/managers/set_functions.py` (C10) -/

/-- A SQLAlchemy column object as seen by a set function: its name and the
`nullable` flag. -/
structure SetFnColumn where
  name : String
  nullable : Bool
  deriving DecidableEq

/-- The SQL value expression a set function builds: references to the stored
column and the incoming value column, `func.coalesce(col, 0)`, and
addition / subtraction. -/
inductive SetExpr where
  | colRef
  | incomingRef
  | coalesceZero (e : SetExpr)
  | add (a b : SetExpr)
  | sub (a b : SetExpr)
  deriving DecidableEq

/-- `IncrementSetFunction.get_expression`: coalesce a nullable column to 0,
then add the incoming value. -/
def increment_get_expression (column : SetFnColumn) : SetExpr :=
  let source := if column.nullable then SetExpr.coalesceZero .colRef else SetExpr.colRef
  .add source .incomingRef

/-- `DecrementSetFunction.get_expression`: coalesce a nullable column to 0,
then subtract the incoming value. -/
def decrement_get_expression (column : SetFnColumn) : SetExpr :=
  let source := if column.nullable then SetExpr.coalesceZero .colRef else SetExpr.colRef
  .sub source .incomingRef

/-- SQL evaluation of a set-function expression for given stored and incoming
values, with `NULL` (`none`) propagating through `+`/`-` and `coalesce`
replacing `NULL` by 0. -/
def evalSetExpr (stored incoming : Option Int) : SetExpr → Option Int
  | .colRef => stored
  | .incomingRef => incoming
  | .coalesceZero e => some ((evalSetExpr stored incoming e).getD 0)
  | .add a b =>
    match evalSetExpr stored incoming a, evalSetExpr stored incoming b with
    | some x, some y => some (x + y)
    | _, _ => none
  | .sub a b =>
    match evalSetExpr stored incoming a, evalSetExpr stored incoming b with
    | some x, some y => some (x - y)
    | _, _ => none

/-- C10: on a nullable column the increment/decrement set functions coalesce
the stored value to 0, so a `NULL` stored value yields the incoming value
(respectively its negation) instead of `NULL`; on a non-nullable column the
bare column reference is used, with no coalescing. -/
theorem set_function_null_coalescing (column : SetFnColumn) (x : Int) :
    (column.nullable = true →
       evalSetExpr none (some x) (increment_get_expression column) = some x ∧
       evalSetExpr none (some x) (decrement_get_expression column) = some (-x)) ∧
    (column.nullable = false →
       increment_get_expression column = .add .colRef .incomingRef ∧
       decrement_get_expression column = .sub .colRef .incomingRef) := by
  constructor
  · intro h
    simp [increment_get_expression, decrement_get_expression, h, evalSetExpr]
  · intro h
    simp [increment_get_expression, decrement_get_expression, h]

/-- C10 witness: a nullable column with `NULL` stored value, incoming 5, and a
non-nullable column's bare expression. -/
theorem set_function_null_coalescing_witness :
    (evalSetExpr none (some 5) (increment_get_expression ⟨"qty", true⟩) = some 5 ∧
     evalSetExpr none (some 5) (decrement_get_expression ⟨"qty", true⟩) = some (-5)) ∧
    (increment_get_expression ⟨"qty", false⟩ = .add .colRef .incomingRef ∧
     decrement_get_expression ⟨"qty", false⟩ = .sub .colRef .incomingRef) :=
  ⟨(set_function_null_coalescing ⟨"qty", true⟩ 5).1 rfl,
   (set_function_null_coalescing ⟨"qty", false⟩ 5).2 rfl⟩

/-! ## `scrudge_orm/utils/sqalchemy.py` and
`scrudge_orm/managers/postgres/manager.py`: conflict-target derivation (C4) -/

/-- A table column as seen by the unique-constraint scan: its name, the
`unique` flag, and the `primary_key` flag. -/
structure PgColumn where
  name : String
  unique : Bool
  primary_key : Bool
  deriving DecidableEq

/-- A (possibly partial) table index: columns, `unique` flag, and the optional
`where` part of a partial unique index. -/
structure PgIndex where
  columns : List String
  unique : Bool
  wherePart : Option String
  deriving DecidableEq

/-- The table data `PostgresManager.get_table_unique_constraint` consumes:
columns, indexes, and the primary-key column name
(`model.get_pk_column_name()`). -/
structure PgTable where
  columns : List PgColumn
  indexes : List PgIndex
  pkName : String
  deriving DecidableEq

/-- Insert-or-replace on an association list, keeping insertion order for an
existing key — the behaviour of a Python `dict` assignment. -/
def dictInsert {κ ν : Type} [DecidableEq κ] (d : List (κ × ν)) (k : κ) (v : ν) :
    List (κ × ν) :=
  if d.any (fun p => p.1 = k) then d.map (fun p => if p.1 = k then (k, v) else p)
  else d ++ [(k, v)]

/-- `get_table_unique_constraints_fields` (`utils/sqalchemy.py`): one entry
per column with `unique=True` (no `where` part), then one entry per unique
index keyed by its column tuple, with the index's `where` part. -/
def get_table_unique_constraints_fields (t : PgTable) :
    List (List String × Option String) :=
  let base := (t.columns.filter (fun c => c.unique)).map
    (fun c => ([c.name], (none : Option String)))
  t.indexes.foldl
    (fun d index =>
      if index.unique then dictInsert d index.columns index.wherePart else d)
    base

/-- The `ValueError` message of `get_table_unique_constraint`, naming every
candidate constraint. -/
def ambiguousConflictMessage (keys : List (List String)) : String :=
  "Can't choose on conflict constraint, you should choose one from: " ++
    String.intercalate "," (keys.map (fun cols => String.intercalate "," cols))

/-- `PostgresManager.get_table_unique_constraint`: no unique constraint means
the primary-key column is used; more than one is a `ValueError` naming the
candidates; otherwise the single constraint is returned. -/
def get_table_unique_constraint (t : PgTable) :
    Except String (List String × Option String) :=
  match get_table_unique_constraints_fields t with
  | [] => .ok ([t.pkName], none)
  | [single] => .ok single
  | u1 :: u2 :: rest => .error (ambiguousConflictMessage ((u1 :: u2 :: rest).map Prod.fst))

/-- The conflict-target resolution step shared by `update_or_create`,
`bulk_update_or_create`, `get_or_create` and `create_or_nothing`: a
caller-supplied target is used as is; otherwise
`get_table_unique_constraint` derives one. -/
def resolveUpsertConflictTarget (t : PgTable)
    (unique_constraint_fields : Option (List String)) :
    Except String (List String × Option String) :=
  match unique_constraint_fields with
  | some fields => .ok (fields, none)
  | none => get_table_unique_constraint t

/-- C4: with no caller-supplied conflict target, an upsert uses the single
declared unique constraint if there is exactly one, falls back to the
primary-key column if there is none, and fails with an ambiguity error naming
the candidates if there are several. -/
theorem conflict_target_auto_derivation (t : PgTable) :
    (get_table_unique_constraints_fields t = [] →
       resolveUpsertConflictTarget t none = .ok ([t.pkName], none)) ∧
    (∀ u, get_table_unique_constraints_fields t = [u] →
       resolveUpsertConflictTarget t none = .ok u) ∧
    (∀ u1 u2 rest, get_table_unique_constraints_fields t = u1 :: u2 :: rest →
       resolveUpsertConflictTarget t none
         = .error (ambiguousConflictMessage ((u1 :: u2 :: rest).map Prod.fst))) := by
  refine ⟨fun h => ?_, fun u h => ?_, fun u1 u2 rest h => ?_⟩ <;>
    simp [resolveUpsertConflictTarget, get_table_unique_constraint, h]

/-- C4 witness: a table with no unique constraint falls back to the primary
key; a table with exactly one uses it; a table with two fails with the
ambiguity error naming both. -/
theorem conflict_target_auto_derivation_witness :
    resolveUpsertConflictTarget ⟨[⟨"id", false, true⟩], [], "id"⟩ none
      = .ok (["id"], none) ∧
    resolveUpsertConflictTarget ⟨[⟨"id", false, true⟩, ⟨"email", true, false⟩], [], "id"⟩ none
      = .ok (["email"], none) ∧
    resolveUpsertConflictTarget
        ⟨[⟨"id", false, true⟩, ⟨"email", true, false⟩, ⟨"phone", true, false⟩], [], "id"⟩ none
      = .error (ambiguousConflictMessage [["email"], ["phone"]]) :=
  ⟨(conflict_target_auto_derivation _).1 (by decide),
   (conflict_target_auto_derivation _).2.1 (["email"], none) (by decide),
   (conflict_target_auto_derivation _).2.2 (["email"], none) (["phone"], none) [] (by decide)⟩

/-! ## `find_foreign_key_relation` (`utils/sqalchemy.py`) — C7 -/

/-- One foreign key of a table: `fk.parent` (the referencing column),
`fk.column.table.name` (the target table), `fk.column` (the target column). -/
structure ForeignKey where
  parent : String
  targetTable : String
  targetColumn : String
  deriving DecidableEq

/-- A table as seen by the relation resolver: its name and foreign keys, in
iteration order. -/
structure FkTable where
  name : String
  foreign_keys : List ForeignKey
  deriving DecidableEq

/-- `find_foreign_key_relation`: scan `from_table.foreign_keys`, `break` at
the first key whose target table is `to_table` (no ambiguity check), raise
`AttributeError` when none matches. -/
def find_foreign_key_relation (from_table to_table : FkTable) :
    Except String (String × String) :=
  match from_table.foreign_keys.find? (fun fk => fk.targetTable = to_table.name) with
  | some fk => .ok (fk.parent, fk.targetColumn)
  | none =>
    .error ("There is no foreign key found from '" ++ from_table.name ++ "' to "
      ++ to_table.name)

/-- The `lru_cache` on `find_foreign_key_relation`, keyed by the argument
pair; table identity is the table name (two tables never share a name). -/
def find_foreign_key_relation_cached
    (cache : List ((String × String) × Except String (String × String)))
    (from_table to_table : FkTable) :
    Except String (String × String)
      × List ((String × String) × Except String (String × String)) :=
  match assocFind (from_table.name, to_table.name) cache with
  | some r => (r, cache)
  | none =>
    let r := find_foreign_key_relation from_table to_table
    (r, cache ++ [((from_table.name, to_table.name), r)])

/-- `find?` returns the head of the filtered list. -/
theorem find?_eq_head_filter {α : Type} (p : α → Bool) (l : List α) :
    l.find? p = (l.filter p).head? := by
  induction l with
  | nil => rfl
  | cons a rest ih =>
    by_cases h : p a = true
    · rw [List.find?_cons_of_pos _ h, List.filter_cons_of_pos h, List.head?_cons]
    · rw [List.find?_cons_of_neg _ h, List.filter_cons_of_neg h, ih]

/-- C7 (amended): with zero matching foreign keys the resolver raises the
no-relation `AttributeError`; with one or more it returns the first matching
foreign key in iteration order — it does not detect ambiguity; the result is
cached per `(fromTable, toTable)` name pair (fresh computation recorded on a
miss, stored value returned on a hit). -/
theorem relation_resolver_behaviour (from_table to_table : FkTable) :
    (from_table.foreign_keys.filter (fun fk => fk.targetTable = to_table.name) = [] →
       find_foreign_key_relation from_table to_table
         = .error ("There is no foreign key found from '" ++ from_table.name ++ "' to "
             ++ to_table.name)) ∧
    (∀ fk rest,
       from_table.foreign_keys.filter (fun fk => fk.targetTable = to_table.name)
         = fk :: rest →
       find_foreign_key_relation from_table to_table = .ok (fk.parent, fk.targetColumn)) ∧
    (∀ cache, assocFind (from_table.name, to_table.name) cache = none →
       find_foreign_key_relation_cached cache from_table to_table
         = (find_foreign_key_relation from_table to_table,
            cache ++ [((from_table.name, to_table.name),
                       find_foreign_key_relation from_table to_table)])) ∧
    (∀ cache r, assocFind (from_table.name, to_table.name) cache = some r →
       find_foreign_key_relation_cached cache from_table to_table = (r, cache)) := by
  refine ⟨fun h => ?_, fun fk rest h => ?_, fun cache h => ?_, fun cache r h => ?_⟩
  · simp [find_foreign_key_relation, find?_eq_head_filter, h]
  · simp [find_foreign_key_relation, find?_eq_head_filter, h]
  · simp [find_foreign_key_relation_cached, h]
  · simp [find_foreign_key_relation_cached, h]

/-- C7 witness: a through-table with one foreign key to the target resolves to
that key's column pair; a cache miss records the result; a cache hit returns
the stored value. -/
theorem relation_resolver_behaviour_witness :
    find_foreign_key_relation ⟨"post", [⟨"author_id", "user", "id"⟩]⟩ ⟨"user", []⟩
      = .ok ("author_id", "id") ∧
    find_foreign_key_relation_cached [] ⟨"post", [⟨"author_id", "user", "id"⟩]⟩ ⟨"user", []⟩
      = (find_foreign_key_relation ⟨"post", [⟨"author_id", "user", "id"⟩]⟩ ⟨"user", []⟩,
         [] ++ [(("post", "user"),
                find_foreign_key_relation ⟨"post", [⟨"author_id", "user", "id"⟩]⟩ ⟨"user", []⟩)]) ∧
    find_foreign_key_relation_cached [(("post", "user"), .ok ("author_id", "id"))]
        ⟨"post", [⟨"author_id", "user", "id"⟩]⟩ ⟨"user", []⟩
      = (.ok ("author_id", "id"), [(("post", "user"), .ok ("author_id", "id"))]) :=
  ⟨(relation_resolver_behaviour _ _).2.1 ⟨"author_id", "user", "id"⟩ [] (by decide),
   (relation_resolver_behaviour _ _).2.2.1 [] (by rfl),
   (relation_resolver_behaviour _ _).2.2.2 _ (.ok ("author_id", "id")) (by rfl)⟩

/-- C7 counterexample to the claim as stated: a table with two foreign keys to
the same target resolves to the first one instead of failing with an
ambiguous-relation error. -/
theorem relation_resolver_counterexample :
    ((FkTable.mk "through" [⟨"a_id", "target", "id"⟩, ⟨"b_id", "target", "id"⟩]).foreign_keys.filter
        (fun fk => fk.targetTable = "target")).length = 2 ∧
    find_foreign_key_relation
        ⟨"through", [⟨"a_id", "target", "id"⟩, ⟨"b_id", "target", "id"⟩]⟩ ⟨"target", []⟩
      = .ok ("a_id", "id") := by
  constructor
  · decide
  · with_unfolding_all rfl

/-! ## `scrudge_orm/query/queryset_paginator.py` (C6)

Rows are represented by their pagination-field values (integers, no `NULL`s,
so `nulls_last` placement is irrelevant). -/

/-- The operator suffix `paginate_query` chooses for the boundary filter
(`"ge" if self.is_increase else "le"`). -/
def paginationOperatorName (is_increase : Bool) : String :=
  if is_increase then "ge" else "le"

/-- The boundary predicate added by
`filter(**{f"{field}__{operator}": start})`, evaluated through the condition
engine's comparison semantics. -/
def paginationBoundaryKeeps (is_increase : Bool) (start v : Int) : Bool :=
  evalCompOp (if is_increase then .ge else .le) (.int v) (.scalar (.int start))

/-- The limit `paginate_query` hands to the underlying queryset:
`self.limit + 1`. -/
def paginatorQueryLimit (limit : Nat) : Nat := limit + 1

/-- The compiled SELECT the paginator executes: boundary filter (when a start
value is given), ORDER BY the pagination field, LIMIT `limit + 1`. -/
def runPaginationQuery (db : List Int) (limit : Nat) (order_desc is_increase : Bool)
    (start : Option Int) : List Int :=
  let filtered := match start with
    | some s => db.filter (fun v => paginationBoundaryKeeps is_increase s v)
    | none => db
  let sorted := if order_desc then List.insertionSort (fun a b => a ≥ b) filtered
                else List.insertionSort (fun a b => a ≤ b) filtered
  sorted.take (paginatorQueryLimit limit)

/-- Python index `-1` or `0` returned by
`get_limit_exceeded_last_item_index`. -/
inductive LastItemIndex where
  | first
  | last
  deriving DecidableEq

/-- `QuerySetPaginator.get_limit_exceeded_last_item_index`. -/
def get_limit_exceeded_last_item_index (order_desc is_increase : Bool) : LastItemIndex :=
  if (order_desc && !is_increase) || (!order_desc && is_increase) then .last else .first

/-- `QuerySetPaginator.get_next_pagination_value_and_final_results`. -/
def get_next_pagination_value_and_final_results (limit : Nat)
    (order_desc is_increase : Bool) (results : List Int) : List Int × Option Int :=
  if limit < results.length then
    let idx := get_limit_exceeded_last_item_index order_desc is_increase
    let next := match idx with
      | .last => results.getLast?
      | .first => results.head?
    let final := match idx with
      | .first => results.drop 1
      | .last => results.take limit
    (final, next)
  else (results, none)

/-- `QuerySetPaginator.paginate_query` over a concrete row set. -/
def paginate_query (db : List Int) (limit : Nat) (order_desc is_increase : Bool)
    (start : Option Int) : List Int × Option Int :=
  get_next_pagination_value_and_final_results limit order_desc is_increase
    (runPaginationQuery db limit order_desc is_increase start)

/-- C6: with ascending order, limit 4, `is_increase` and rows `{1..5}` the
query runs with limit 5, the page is `[1,2,3,4]` and the next cursor is 5;
and every boundary filter is inclusive — `field ≥ cursor` when `is_increase`,
`field ≤ cursor` otherwise — so the boundary row itself is always kept. -/
theorem paginator_behaviour :
    (paginatorQueryLimit 4 = 5) ∧
    (paginate_query [3, 1, 5, 2, 4] 4 false true none = ([1, 2, 3, 4], some 5)) ∧
    (∀ (is_increase : Bool) (start v : Int),
       paginationBoundaryKeeps is_increase start v
         = (if is_increase then decide (v ≥ start) else decide (v ≤ start))) ∧
    (∀ (is_increase : Bool) (start : Int),
       paginationBoundaryKeeps is_increase start start = true) ∧
    (SupportedOperator.get_operator (paginationOperatorName true) = .ok .ge ∧
     SupportedOperator.get_operator (paginationOperatorName false) = .ok .le) := by
  refine ⟨rfl, by decide, ?_, ?_, by with_unfolding_all rfl, by with_unfolding_all rfl⟩
  · intro inc start v
    cases inc <;> simp [paginationBoundaryKeeps, evalCompOp, scalarCmp]
  · intro inc start
    cases inc <;> simp [paginationBoundaryKeeps, evalCompOp, scalarCmp]

/-! ## Transaction-aware prefetch dispatch
(`queryset.py` lines 292–298 and `backends/base.py` `is_on_transaction`) — C5

Secondary prefetch queries are modelled as task identifiers; what matters is
whether the batch is awaited one by one or gathered concurrently. -/

/-- `DatabaseBackend.is_on_transaction`: the `ON_TRANSACTION` counter for this
backend instance is non-zero. -/
def is_on_transaction (transaction_counter : Nat) : Bool :=
  transaction_counter ≠ 0

/-- How one batch of pending prefetch queries is executed. -/
inductive PrefetchDispatch where
  | noQueries
  | sequential (tasks : List Nat)
  | concurrent (tasks : List Nat)
  deriving DecidableEq

/-- The tail of `QuerySet._process_add_prefetch_tables_data`: with pending
tasks, a backend currently inside a transaction awaits them one after another,
otherwise they are gathered concurrently.  The transaction state is an
argument — it is read from the backend at this call, not stored on the
queryset. -/
def process_prefetch_dispatch (transaction_counter : Nat) (tasks : List Nat) :
    PrefetchDispatch :=
  if tasks.isEmpty then .noQueries
  else if is_on_transaction transaction_counter then .sequential tasks
  else .concurrent tasks

/-- Start / completion events of awaited queries. -/
inductive AwaitEvent where
  | start (t : Nat)
  | finish (t : Nat)
  deriving DecidableEq

/-- Execution trace of the sequential `for coro in tasks_to_async_run: await
coro` loop: each task starts and finishes before the next one starts. -/
def sequentialTrace (tasks : List Nat) : List AwaitEvent :=
  (tasks.map (fun t => [AwaitEvent.start t, AwaitEvent.finish t])).flatten

/-- Consecutive prefetch batches; each one reads the backend's transaction
counter as it stands at its own call. -/
def runPrefetchBatches (counters : List Nat) (taskLists : List (List Nat)) :
    List PrefetchDispatch :=
  List.zipWith process_prefetch_dispatch counters taskLists

/-- C5: inside a transaction a batch of prefetch queries is awaited strictly
sequentially (the next starts only after the previous finishes), outside one
it is gathered concurrently, and each batch's dispatch is a function of the
backend's transaction state at that batch alone — an earlier batch's state is
never reused. -/
theorem prefetch_transaction_dispatch (c : Nat) (tasks : List Nat) (h : tasks ≠ []) :
    (is_on_transaction c = true →
       process_prefetch_dispatch c tasks = .sequential tasks) ∧
    (is_on_transaction c = false →
       process_prefetch_dispatch c tasks = .concurrent tasks) ∧
    (∀ t rest, tasks = t :: rest →
       sequentialTrace tasks = .start t :: .finish t :: sequentialTrace rest) ∧
    (∀ (c' : Nat) (tasks' : List Nat),
       runPrefetchBatches [c, c'] [tasks, tasks']
         = [process_prefetch_dispatch c tasks, process_prefetch_dispatch c' tasks']) := by
  refine ⟨fun ht => ?_, fun ht => ?_, fun t rest hts => ?_, fun c' tasks' => rfl⟩
  · simp [process_prefetch_dispatch, ht, h]
  · simp [process_prefetch_dispatch, ht, h]
  · subst hts
    simp [sequentialTrace]

/-- C5 witness: counter 1 (inside a transaction) with two pending queries runs
them sequentially with the strict start/finish order; counter 0 gathers them;
a later batch with counter 0 after one with counter 1 is dispatched by its own
state. -/
theorem prefetch_transaction_dispatch_witness :
    (process_prefetch_dispatch 1 [7, 8] = .sequential [7, 8]) ∧
    (process_prefetch_dispatch 0 [7, 8] = .concurrent [7, 8]) ∧
    (sequentialTrace [7, 8] = .start 7 :: .finish 7 :: sequentialTrace [8]) ∧
    (runPrefetchBatches [1, 0] [[7, 8], [7, 8]]
       = [process_prefetch_dispatch 1 [7, 8], process_prefetch_dispatch 0 [7, 8]]) :=
  ⟨(prefetch_transaction_dispatch 1 [7, 8] (by decide)).1 (by decide),
   (prefetch_transaction_dispatch 0 [7, 8] (by decide)).2.1 (by decide),
   (prefetch_transaction_dispatch 1 [7, 8] (by decide)).2.2.1 7 [8] rfl,
   (prefetch_transaction_dispatch 1 [7, 8] (by decide)).2.2.2 0 [7, 8]⟩

/-! ## `DatabaseManager.bulk_insert` / `bulk_insert_raw` (`managers/base.py`) — C3 -/

/-- An entity handed to `bulk_insert`: the caller-set column data (abstracted
to one payload) and the auto-generated column value, absent until refreshed
from the database. -/
structure InsertEntity where
  payload : Int
  genValue : Option Int
  deriving DecidableEq

/-- Python `range(0, stop, step)` for a positive step: the
`ceil(stop/step)` multiples of `step` below `stop`. -/
def pythonRange (stop step : Nat) : List Nat :=
  List.range' 0 ((stop + step - 1) / step) step

/-- The batch slices of `bulk_insert_raw`'s loop:
`insert_objects[i : i + batch_size]` for `i in range(0, len(insert_objects),
batch_size)`.  Each slice becomes one multi-row INSERT statement. -/
def bulkBatches {α : Type} (insert_objects : List α) (batch_size : Nat) : List (List α) :=
  (pythonRange insert_objects.length batch_size).map
    (fun i => (insert_objects.drop i).take batch_size)

/-- `bulk_insert_raw` opens exactly one `pool.transaction()` and runs every
batch statement inside it. -/
def bulkInsertTransactions {α : Type} (insert_objects : List α) (batch_size : Nat) :
    List (List (List α)) :=
  [bulkBatches insert_objects batch_size]

/-- The rows collected by `inserted_objects.extend(await ...)` across batches:
the backend returns one generated row per inserted entity of the batch, in
insertion order; `gen j` is the generated value of the `j`-th row inserted
overall. -/
def extendReturnedRows (gen : Nat → Int) (batches : List (List InsertEntity)) : List Int :=
  (batches.foldl
    (fun acc batch =>
      (acc.1 ++ (List.range batch.length).map (fun j => gen (acc.2 + j)),
       acc.2 + batch.length))
    ([], 0)).1

/-- `DatabaseManager.bulk_insert`: empty input short-circuits; otherwise the
batches run and, with `refresh_auto_fields`, the `index`-th returned row is
written back onto `data_as_list[index]`. -/
def bulk_insert (data : List InsertEntity) (batch_size : Nat)
    (refresh_auto_fields : Bool) (gen : Nat → Int) : List InsertEntity :=
  if data.isEmpty then []
  else
    let inserted_rows := extendReturnedRows gen (bulkBatches data batch_size)
    if refresh_auto_fields then
      List.zipWith (fun e v => { e with genValue := some v }) data inserted_rows
    else data

/-- Unfolding of `bulkBatches` on a non-empty input: the first `batch_size`
elements form the head batch and the remaining input is batched after it. -/
theorem bulkBatches_cons {α : Type} (l : List α) (bs : Nat) (hbs : 0 < bs)
    (hl : l ≠ []) :
    bulkBatches l bs = l.take bs :: bulkBatches (l.drop bs) bs := by
  have hlen : 0 < l.length := List.length_pos.mpr hl
  have hiter : (l.length + bs - 1) / bs = (l.length - 1) / bs + 1 := by
    have h1 : l.length + bs - 1 = (l.length - 1) + bs := by omega
    rw [h1, Nat.add_div_right _ hbs]
  have hiterdrop : ((l.drop bs).length + bs - 1) / bs = (l.length - 1) / bs := by
    rw [List.length_drop]
    rcases Nat.le_total l.length bs with h | h
    · have h2 : l.length - bs = 0 := by omega
      have e1 : (0 + bs - 1) / bs = 0 := Nat.div_eq_of_lt (by omega)
      have e2 : (l.length - 1) / bs = 0 := Nat.div_eq_of_lt (by omega)
      rw [h2, e1, e2]
    · congr 1
      omega
  have hshift : ∀ (m s : Nat),
      (List.range' (s + bs) m bs).map (fun i => (l.drop i).take bs)
        = (List.range' s m bs).map (fun i => ((l.drop bs).drop i).take bs) := by
    intro m
    induction m with
    | zero => intro s; rfl
    | succ m ih =>
      intro s
      rw [List.range'_succ, List.range'_succ, List.map_cons, List.map_cons]
      congr 1
      · rw [List.drop_drop, Nat.add_comm bs s]
      · exact ih (s + bs)
  unfold bulkBatches pythonRange
  rw [hiter, hiterdrop, List.range'_succ, List.map_cons, List.drop_zero]
  congr 1
  exact hshift ((l.length - 1) / bs) 0

/-- `bulkBatches` of the empty list is empty. -/
theorem bulkBatches_nil {α : Type} (bs : Nat) (hbs : 0 < bs) :
    bulkBatches ([] : List α) bs = [] := by
  have h : (bs - 1) / bs = 0 := Nat.div_eq_of_lt (by omega)
  simp [bulkBatches, pythonRange, h]

/-- Concatenating the batches gives back the input, in order. -/
theorem bulkBatches_flatten {α : Type} (bs : Nat) (hbs : 0 < bs) (l : List α) :
    (bulkBatches l bs).flatten = l := by
  have key : ∀ (n : Nat) (l : List α), l.length ≤ n → (bulkBatches l bs).flatten = l := by
    intro n
    induction n with
    | zero =>
      intro l hl
      have h0 : l = [] := List.eq_nil_of_length_eq_zero (by omega)
      subst h0
      rw [bulkBatches_nil bs hbs]
      rfl
    | succ n ih =>
      intro l hl
      by_cases hnil : l = []
      · subst hnil
        rw [bulkBatches_nil bs hbs]
        rfl
      · rw [bulkBatches_cons l bs hbs hnil, List.flatten_cons,
          ih (l.drop bs) (by rw [List.length_drop]; omega)]
        exact List.take_append_drop bs l
  exact key l.length l le_rfl

/-- The returned rows are exactly one generated value per inserted row, in
global insertion order. -/
theorem extendReturnedRows_eq (gen : Nat → Int) (batches : List (List InsertEntity)) :
    extendReturnedRows gen batches
      = (List.range batches.flatten.length).map gen := by
  have key : ∀ (bs : List (List InsertEntity)) (acc : List Int) (off : Nat),
      (bs.foldl
        (fun acc batch =>
          (acc.1 ++ (List.range batch.length).map (fun j => gen (acc.2 + j)),
           acc.2 + batch.length))
        (acc, off)).1
        = acc ++ (List.range bs.flatten.length).map (fun j => gen (off + j)) := by
    intro bs
    induction bs with
    | nil => intro acc off; simp
    | cons b rest ih =>
      intro acc off
      rw [List.foldl_cons, ih, List.flatten_cons, List.length_append, List.range_add,
        List.map_append, List.map_map, List.append_assoc]
      congr 1
      congr 1
      apply List.map_congr_left
      intro j hj
      show gen (off + b.length + j) = gen (off + (b.length + j))
      congr 1
      omega
  unfold extendReturnedRows
  rw [key]
  rw [List.nil_append]
  apply List.map_congr_left
  intro j hj
  rw [Nat.zero_add]

/-- C3: `bulk_insert` of a non-empty input with positive `batch_size` runs one
transaction containing exactly `ceil(N / batch_size)` insert statements, the
`k`-th statement inserting elements `[k * batch_size, (k + 1) * batch_size)`
of the input in order; with auto-field refresh the `j`-th returned generated
value lands on exactly the `j`-th input entity. -/
theorem bulk_insert_batching (data : List InsertEntity) (batch_size : Nat) (gen : Nat → Int)
    (hbs : 0 < batch_size) (hne : data ≠ []) :
    (bulkInsertTransactions data batch_size).length = 1 ∧
    (bulkBatches data batch_size).length = (data.length + batch_size - 1) / batch_size ∧
    (∀ k, k < (bulkBatches data batch_size).length →
       (bulkBatches data batch_size)[k]? = some ((data.drop (k * batch_size)).take batch_size)) ∧
    (bulkBatches data batch_size).flatten = data ∧
    (∀ j (hj : j < data.length),
       (bulk_insert data batch_size true gen)[j]?
         = some { data.get ⟨j, hj⟩ with genValue := some (gen j) }) := by
  refine ⟨rfl, ?_, ?_, bulkBatches_flatten batch_size hbs data, ?_⟩
  · unfold bulkBatches pythonRange
    rw [List.length_map, List.length_range']
  · intro k hk
    unfold bulkBatches pythonRange at hk ⊢
    rw [List.length_map, List.length_range'] at hk
    rw [List.getElem?_map, List.getElem?_range' 0 batch_size hk]
    simp only [Option.map_some']
    rw [Nat.zero_add, Nat.mul_comm batch_size k]
  · intro j hj
    have hrows : extendReturnedRows gen (bulkBatches data batch_size)
        = (List.range data.length).map gen := by
      rw [extendReturnedRows_eq, bulkBatches_flatten batch_size hbs data]
    have hie : data.isEmpty = false := by
      cases data with
      | nil => exact absurd rfl hne
      | cons a l => rfl
    simp only [bulk_insert, hie, Bool.false_eq_true, if_false, if_true, hrows]
    rw [List.getElem?_zipWith, List.getElem?_map, List.getElem?_range hj,
      List.getElem?_eq_getElem hj]
    rfl

/-- C3 witness: five entities with batch size 2 produce one transaction of
three statements slicing the input in order, and entity 3 receives generated
value `gen 3 = 103`. -/
theorem bulk_insert_batching_witness :
    (bulkInsertTransactions
        [InsertEntity.mk 10 none, ⟨11, none⟩, ⟨12, none⟩, ⟨13, none⟩, ⟨14, none⟩] 2).length = 1 ∧
    (bulkBatches
        [InsertEntity.mk 10 none, ⟨11, none⟩, ⟨12, none⟩, ⟨13, none⟩, ⟨14, none⟩] 2).length
      = (5 + 2 - 1) / 2 ∧
    (bulk_insert [InsertEntity.mk 10 none, ⟨11, none⟩, ⟨12, none⟩, ⟨13, none⟩, ⟨14, none⟩]
        2 true (fun j => 100 + j))[3]?
      = some { payload := 13, genValue := some 103 } := by
  have h := bulk_insert_batching
    [InsertEntity.mk 10 none, ⟨11, none⟩, ⟨12, none⟩, ⟨13, none⟩, ⟨14, none⟩]
    2 (fun j => 100 + j) (by decide) (by decide)
  exact ⟨h.1, h.2.1, by
    have h5 := h.2.2.2.2 3 (by decide)
    rw [h5]
    rfl⟩

/-! ## `QuerySet.select_related` (`queryset.py` lines 528–564) — C8 -/

/-- The schema `select_related` walks: for each `(model, relationKey)` the
target model, and for each model its column names.  `DatabaseModelMeta`
registers `related_fields[value.related_name] = value`, so a relation's
dictionary key and its `related_name` coincide. -/
structure RelSchema where
  relations : List ((String × String) × String)
  columns : List (String × List String)

/-- `current_model.related_fields[rel_model_name]` with its target model. -/
def lookupRelation (s : RelSchema) (model rel : String) : Option String :=
  assocFind (model, rel) s.relations

/-- `related_field.to_manager.table.c`. -/
def modelColumns (s : RelSchema) (model : String) : List String :=
  (assocFind model s.columns).getD []

/-- The join-related `QuerySet` state: `joined_models` (a set, represented
with order of insertion), the projected column labels, the annotation
dictionary, and the sequence of emitted SQL joins (with multiplicity). -/
structure QSJoinState where
  joined_models : List String
  current_columns_to_select : List String
  annotations : List (String × String)
  joins : List String
  deriving DecidableEq

/-- `".".join(label_prefixes)`. -/
def joinPath : List String → String
  | [] => ""
  | [a] => a
  | a :: rest => a ++ "." ++ joinPath rest

/-- One hop of `select_related`'s `for rel_model_name in
rel_model_expression.split("__")` loop: join the target table, project its
columns under the dot-qualified path, record the annotation per column, and
add the dot-path to `joined_models`. -/
def selectRelatedHop (schema : RelSchema) :
    List String × String × QSJoinState → String →
      Except String (List String × String × QSJoinState)
  | (labelPaths, currentModel, qs), hop =>
    match lookupRelation schema currentModel hop with
    | none => .error ("Unsupported related model '" ++ hop ++ "'")
    | some target =>
      let labelPaths' := labelPaths ++ [hop]
      let path := joinPath labelPaths'
      let cols := modelColumns schema target
      .ok (labelPaths', target,
        { joined_models :=
            if path ∈ qs.joined_models then qs.joined_models
            else qs.joined_models ++ [path],
          current_columns_to_select :=
            qs.current_columns_to_select ++ cols.map (fun c => path ++ "." ++ c),
          annotations :=
            cols.foldl
              (fun anns c => dictInsert anns (path ++ "__" ++ c) (path ++ "." ++ c))
              qs.annotations,
          joins := qs.joins ++ [target] })

/-- The hop loop, aborting on the first unsupported relation. -/
def selectRelatedLoop (schema : RelSchema) :
    List String × String × QSJoinState → List String →
      Except String (List String × String × QSJoinState)
  | st, [] => .ok st
  | st, hop :: rest =>
    match selectRelatedHop schema st hop with
    | .error e => .error e
    | .ok st' => selectRelatedLoop schema st' rest

/-- `QuerySet.select_related` for one path expression: an expression already
in `joined_models` is dropped by the set difference and the call returns the
queryset unchanged; otherwise every `"__"`-separated hop is joined. -/
def select_related (schema : RelSchema) (rootModel : String) (qs : QSJoinState)
    (expr : String) : Except String QSJoinState :=
  if expr ∈ qs.joined_models then .ok qs
  else
    match selectRelatedLoop schema ([], rootModel, qs) (expr.splitOn "__") with
    | .error e => .error e
    | .ok r => .ok r.2.2

/-- C8 (amended): an expression already recorded in `joined_models` is a
no-op, and for a single-hop relation name a second `select_related` call is a
no-op, because the first call records exactly that name.  (For multi-hop
`"__"` expressions the recorded paths use `"."` separators, so the
deduplication guard never matches — see the counterexample.) -/
theorem select_related_dedup (schema : RelSchema) (rootModel : String)
    (qs qs' : QSJoinState) (expr : String) :
    (expr ∈ qs.joined_models → select_related schema rootModel qs expr = .ok qs) ∧
    (expr.splitOn "__" = [expr] →
       select_related schema rootModel qs expr = .ok qs' →
       select_related schema rootModel qs' expr = .ok qs') := by
  constructor
  · intro hmem
    unfold select_related
    rw [if_pos hmem]
  · intro hsingle h
    unfold select_related at h ⊢
    by_cases hmem : expr ∈ qs.joined_models
    · rw [if_pos hmem] at h
      have hq : qs = qs' := by
        injection h
      subst hq
      rw [if_pos hmem]
    · rw [if_neg hmem, hsingle] at h
      cases hlook : lookupRelation schema rootModel expr with
      | none =>
        rw [selectRelatedLoop] at h
        simp only [selectRelatedHop, hlook] at h
        exact Except.noConfusion h
      | some target =>
        rw [selectRelatedLoop] at h
        simp only [selectRelatedHop, hlook] at h
        rw [selectRelatedLoop] at h
        simp only [Except.ok.injEq] at h
        have hexpr : expr ∈ qs'.joined_models := by
          rw [← h]
          simp only [List.nil_append]
          show expr ∈ (if joinPath [expr] ∈ qs.joined_models then qs.joined_models
            else qs.joined_models ++ [joinPath [expr]])
          have hjp : joinPath [expr] = expr := rfl
          rw [hjp, if_neg hmem]
          exact List.mem_append_right _ (List.mem_singleton.mpr rfl)
        rw [if_pos hexpr]

/-- Concrete schema for the C8 witness and counterexample: root model with a
relation `a` to `modelA`, which has a relation `b` to `modelB`. -/
def c8Schema : RelSchema :=
  ⟨[(("root", "a"), "modelA"), (("modelA", "b"), "modelB")],
   [("root", ["id"]), ("modelA", ["id"]), ("modelB", ["id"])]⟩

def c8Init : QSJoinState := ⟨[], ["id"], [], []⟩

/-- State after `select_related("a")`. -/
def c8QsA : QSJoinState := ⟨["a"], ["id", "a.id"], [("a__id", "a.id")], ["modelA"]⟩

/-- State after the first `select_related("a__b")`. -/
def c8Qs1 : QSJoinState :=
  ⟨["a", "a.b"], ["id", "a.id", "a.b.id"], [("a__id", "a.id"), ("a.b__id", "a.b.id")],
   ["modelA", "modelB"]⟩

/-- State after the second `select_related("a__b")`: joins and projected
columns are duplicated. -/
def c8Qs2 : QSJoinState :=
  ⟨["a", "a.b"], ["id", "a.id", "a.b.id", "a.id", "a.b.id"],
   [("a__id", "a.id"), ("a.b__id", "a.b.id")],
   ["modelA", "modelB", "modelA", "modelB"]⟩

/-- C8 witness: requesting the single-hop path `a` twice is a no-op. -/
theorem select_related_dedup_witness :
    select_related c8Schema "root" c8QsA "a" = .ok c8QsA :=
  (select_related_dedup c8Schema "root" c8Init c8QsA "a").2
    (by with_unfolding_all rfl) (by with_unfolding_all rfl)

/-- C8 counterexample to the claim as stated: requesting the multi-hop path
`a__b` twice re-joins both hops and duplicates the projected columns, because
`joined_models` stores `"a"` and `"a.b"` while the guard compares the raw
`"a__b"` expression. -/
theorem select_related_counterexample :
    select_related c8Schema "root" c8Init "a__b" = .ok c8Qs1 ∧
    select_related c8Schema "root" c8Qs1 "a__b" = .ok c8Qs2 ∧
    c8Qs2 ≠ c8Qs1 := by
  refine ⟨by with_unfolding_all rfl, by with_unfolding_all rfl, by decide⟩

/-! ## One-to-many / one-to-one prefetch
(`QuerySet._process_add_prefetch_tables_data`,
`DatabaseManager.get_prefetch_related_queryset_o2m`,
`PrefetchFieldOneToMany` / `PrefetchFieldOneToOne`) — C1 -/

/-- A root-query row reduced to what the prefetch engine reads: the root-side
key column the relation joins on (`item[current_model_column.name]`, possibly
NULL) and an identifying payload. -/
structure RootRow where
  key : Option Int
  payload : Int
  deriving DecidableEq

/-- A secondary-table row: the foreign-key column pointing at the root table
(possibly NULL) and a payload standing for the other selected columns. -/
structure TargetRow where
  fk : Option Int
  payload : Int
  deriving DecidableEq

/-- The keys of the `records_by_related_fields[...]` dict: the distinct
non-NULL root keys, in first-appearance order (rows with
`item[current_model_column.name] is None` are skipped). -/
def collectKeys (roots : List RootRow) : List Int :=
  roots.foldl
    (fun acc r =>
      match r.key with
      | some v => if v ∈ acc then acc else acc ++ [v]
      | none => acc)
    []

/-- The `{fk}__in (collected keys)` filter of
`get_prefetch_related_queryset_o2m`; a NULL foreign key never matches SQL
`IN`. -/
def o2mQueryFilter (keys : List Int) (t : TargetRow) : Bool :=
  match t.fk with
  | some v => v ∈ keys
  | none => false

/-- The secondary statements the one-to-many serializer executes for one
prefetched relation: `serialize` builds exactly one queryset over the distinct
collected keys and awaits it once. -/
def o2mSecondaryQueries (roots : List RootRow) : List (TargetRow → Bool) :=
  [o2mQueryFilter (collectKeys roots)]

/-- The backend evaluating one secondary query against the target table. -/
def runSecondaryQuery (db : List TargetRow) (q : TargetRow → Bool) : List TargetRow :=
  db.filter q

/-- Whether the stitching loop routes result row `t` to root row `r`: roots
are registered under their non-NULL key, results are routed by their
foreign-key value. -/
def stitchMatches (r : RootRow) (t : TargetRow) : Bool :=
  match r.key with
  | some v => t.fk = some v
  | none => false

/-- One result row of `PrefetchFieldOneToMany.serialize_prefetched_data`'s
loop: append `t` to every registered root row sharing its key. -/
def stitchStepO2M (roots : List RootRow) (attrs : List (List TargetRow)) (t : TargetRow) :
    List (List TargetRow) :=
  List.zipWith (fun r a => if stitchMatches r t then a ++ [t] else a) roots attrs

/-- `OneToManyRelationField.get_default_value`. -/
def o2mDefaultValue : List TargetRow := []

/-- `OneToOneRelationField.get_default_value`. -/
def o2oDefaultValue : Option TargetRow := none

/-- One-to-many stitching: every root row starts at the declared default
(`item[prefetch_field_name] = related_field.get_default_value()`), then the
result rows are appended in result order. -/
def stitchO2M (roots : List RootRow) (results : List TargetRow) : List (List TargetRow) :=
  results.foldl (stitchStepO2M roots) (roots.map (fun _ => o2mDefaultValue))

/-- One result row of `PrefetchFieldOneToOne.serialize_prefetched_data`'s
loop: assign instead of append, so the last matching result row wins. -/
def stitchStepO2O (roots : List RootRow) (attrs : List (Option TargetRow)) (t : TargetRow) :
    List (Option TargetRow) :=
  List.zipWith (fun r a => if stitchMatches r t then some t else a) roots attrs

/-- One-to-one stitching, starting from the declared `None` default. -/
def stitchO2O (roots : List RootRow) (results : List TargetRow) : List (Option TargetRow) :=
  results.foldl (stitchStepO2O roots) (roots.map (fun _ => o2oDefaultValue))

/-- The full one-to-many prefetch of one relation: execute the single
secondary query over the collected keys, then stitch. -/
def prefetchO2M (roots : List RootRow) (db : List TargetRow) : List (List TargetRow) :=
  stitchO2M roots (runSecondaryQuery db (o2mQueryFilter (collectKeys roots)))

/-- The full one-to-one prefetch (same secondary query, assigning stitch). -/
def prefetchO2O (roots : List RootRow) (db : List TargetRow) : List (Option TargetRow) :=
  stitchO2O roots (runSecondaryQuery db (o2mQueryFilter (collectKeys roots)))

/-- `zipWith` ignoring the left list is the identity when lengths agree. -/
theorem zipWith_id_right {α β : Type} :
    ∀ (l : List α) (l' : List β), l'.length = l.length →
      List.zipWith (fun _ a => a) l l' = l' := by
  intro l
  induction l with
  | nil =>
    intro l' h
    rw [List.length_nil] at h
    rw [List.eq_nil_of_length_eq_zero h]
    rfl
  | cons a rest ih =>
    intro l' h
    cases l' with
    | nil => rfl
    | cons b rest' =>
      rw [List.zipWith_cons_cons, ih rest' (by simpa using h)]

/-- Fusion of two `zipWith`s over the same left list. -/
theorem zipWith_zipWith_same {α β γ δ : Type} (f : α → γ → δ) (g : α → β → γ) :
    ∀ (l : List α) (l' : List β),
      List.zipWith f l (List.zipWith g l l') = List.zipWith (fun x y => f x (g x y)) l l' := by
  intro l
  induction l with
  | nil => intro l'; rfl
  | cons a rest ih =>
    intro l'
    cases l' with
    | nil => rfl
    | cons b rest' =>
      rw [List.zipWith_cons_cons, List.zipWith_cons_cons, List.zipWith_cons_cons, ih]

/-- Pointwise congruence for `zipWith`. -/
theorem zipWith_congr_fun {α β γ : Type} (f g : α → β → γ) (h : ∀ a b, f a b = g a b) :
    ∀ (l : List α) (l' : List β), List.zipWith f l l' = List.zipWith g l l' := by
  intro l
  induction l with
  | nil => intro l'; rfl
  | cons a rest ih =>
    intro l'
    cases l' with
    | nil => rfl
    | cons b rest' =>
      rw [List.zipWith_cons_cons, List.zipWith_cons_cons, h, ih]

/-- Characterization of the one-to-many stitching fold: each root row
accumulates, in result order, exactly the result rows routed to it. -/
theorem stitchO2M_fold (roots : List RootRow) :
    ∀ (results : List TargetRow) (attrs : List (List TargetRow)),
      attrs.length = roots.length →
      results.foldl (stitchStepO2M roots) attrs
        = List.zipWith (fun r a => a ++ results.filter (stitchMatches r)) roots attrs := by
  intro results
  induction results with
  | nil =>
    intro attrs h
    simp only [List.foldl_nil, List.filter_nil, List.append_nil]
    exact (zipWith_id_right roots attrs h).symm
  | cons t ts ih =>
    intro attrs h
    rw [List.foldl_cons]
    have hlen : (stitchStepO2M roots attrs t).length = roots.length := by
      rw [stitchStepO2M, List.length_zipWith]
      omega
    rw [ih (stitchStepO2M roots attrs t) hlen, stitchStepO2M, zipWith_zipWith_same]
    apply zipWith_congr_fun
    intro r a
    by_cases hm : stitchMatches r t = true
    · rw [if_pos hm, List.filter_cons_of_pos hm, List.append_assoc]
      rfl
    · rw [if_neg hm, List.filter_cons_of_neg (by simpa using hm)]

/-- `Option.or` through the last element of a cons. -/
theorem or_getLast?_cons {α : Type} (t : α) (l : List α) (a : Option α) :
    Option.or ((t :: l).getLast?) a = Option.or l.getLast? (some t) := by
  cases l with
  | nil => rfl
  | cons u us =>
    rw [List.getLast?_cons_cons]
    have hsome : (u :: us).getLast?.isSome := by
      rw [List.getLast?_isSome]
      exact List.cons_ne_nil u us
    obtain ⟨w, hw⟩ := Option.isSome_iff_exists.mp hsome
    rw [hw]
    rfl

/-- Characterization of the one-to-one stitching fold: each root row ends at
the last result row routed to it, or keeps its current value. -/
theorem stitchO2O_fold (roots : List RootRow) :
    ∀ (results : List TargetRow) (attrs : List (Option TargetRow)),
      attrs.length = roots.length →
      results.foldl (stitchStepO2O roots) attrs
        = List.zipWith
            (fun r a => Option.or ((results.filter (stitchMatches r)).getLast?) a)
            roots attrs := by
  intro results
  induction results with
  | nil =>
    intro attrs h
    simp only [List.foldl_nil, List.filter_nil, List.getLast?_nil, Option.none_or]
    exact (zipWith_id_right roots attrs h).symm
  | cons t ts ih =>
    intro attrs h
    rw [List.foldl_cons]
    have hlen : (stitchStepO2O roots attrs t).length = roots.length := by
      rw [stitchStepO2O, List.length_zipWith]
      omega
    rw [ih (stitchStepO2O roots attrs t) hlen, stitchStepO2O, zipWith_zipWith_same]
    apply zipWith_congr_fun
    intro r a
    by_cases hm : stitchMatches r t = true
    · rw [if_pos hm, List.filter_cons_of_pos hm, or_getLast?_cons]
    · rw [if_neg hm, List.filter_cons_of_neg (by simpa using hm)]

/-- Monotonicity of the key-collection fold. -/
theorem collectKeys_aux_mono (v : Int) :
    ∀ (l : List RootRow) (acc : List Int), v ∈ acc →
      v ∈ l.foldl
        (fun acc r =>
          match r.key with
          | some w => if w ∈ acc then acc else acc ++ [w]
          | none => acc)
        acc := by
  intro l
  induction l with
  | nil => intro acc h; exact h
  | cons r rest ih =>
    intro acc h
    rw [List.foldl_cons]
    apply ih
    cases hk : r.key with
    | none => exact h
    | some w =>
      by_cases hw : w ∈ acc
      · simpa [hw] using h
      · simp only [if_neg hw]
        exact List.mem_append_left _ h

/-- Every non-NULL root key ends up among the collected keys. -/
theorem mem_collectKeys (roots : List RootRow) (r : RootRow) (v : Int)
    (hr : r ∈ roots) (hk : r.key = some v) : v ∈ collectKeys roots := by
  unfold collectKeys
  have aux : ∀ (l : List RootRow) (acc : List Int), r ∈ l →
      v ∈ l.foldl
        (fun acc r =>
          match r.key with
          | some w => if w ∈ acc then acc else acc ++ [w]
          | none => acc)
        acc := by
    intro l
    induction l with
    | nil => intro acc h; exact absurd h (List.not_mem_nil r)
    | cons a rest ih =>
      intro acc h
      rw [List.foldl_cons]
      rcases List.mem_cons.mp h with h1 | h1
      · subst h1
        rw [hk]
        apply collectKeys_aux_mono
        by_cases hv : v ∈ acc
        · simp [hv]
        · simp only [if_neg hv]
          exact List.mem_append_right _ (List.mem_singleton.mpr rfl)
      · exact ih _ h1
  exact aux roots [] hr

/-- Index lookup through the one-to-many stitch. -/
theorem stitchO2M_getElem (roots : List RootRow) (results : List TargetRow)
    (i : Nat) (hi : i < roots.length) :
    (stitchO2M roots results)[i]?
      = some (results.filter (stitchMatches (roots.get ⟨i, hi⟩))) := by
  rw [stitchO2M, stitchO2M_fold roots results _ (by rw [List.length_map]),
    List.getElem?_zipWith, List.getElem?_map, List.getElem?_eq_getElem hi]
  simp only [Option.map_some']
  rfl

/-- Index lookup through the one-to-one stitch. -/
theorem stitchO2O_getElem (roots : List RootRow) (results : List TargetRow)
    (i : Nat) (hi : i < roots.length) :
    (stitchO2O roots results)[i]?
      = some ((results.filter (stitchMatches (roots.get ⟨i, hi⟩))).getLast?) := by
  rw [stitchO2O, stitchO2O_fold roots results _ (by rw [List.length_map]),
    List.getElem?_zipWith, List.getElem?_map, List.getElem?_eq_getElem hi]
  simp only [Option.map_some', o2oDefaultValue, Option.or_none]
  rfl

/-- Filtering the secondary result set by a registered root key gives the same
rows as filtering the whole target table by it. -/
theorem filter_runSecondaryQuery (roots : List RootRow) (db : List TargetRow)
    (r : RootRow) (v : Int) (hr : r ∈ roots) (hk : r.key = some v) :
    (runSecondaryQuery db (o2mQueryFilter (collectKeys roots))).filter (stitchMatches r)
      = db.filter (stitchMatches r) := by
  rw [runSecondaryQuery, List.filter_filter]
  apply List.filter_congr
  intro t ht
  by_cases hm : stitchMatches r t = true
  · rw [hm, Bool.true_and]
    rw [stitchMatches, hk] at hm
    have hfk : t.fk = some v := by
      simpa using hm
    rw [o2mQueryFilter, hfk]
    simp only [decide_eq_true_eq]
    exact mem_collectKeys roots r v hr hk
  · rw [Bool.eq_false_iff.mpr hm, Bool.false_and]

/-- C1: a one-to-many prefetched relation issues exactly one secondary query,
whose result keeps exactly the target rows whose foreign key is among the
collected root keys; after stitching every root row with key `v` carries
exactly the target rows with foreign key `v` (in table order), a root row with
NULL key keeps the declared empty-list default, and the one-to-one variant
assigns the declared `None` default when no target row matches, otherwise the
last matching row. -/
theorem prefetch_o2m_correctness (roots : List RootRow) (db : List TargetRow) :
    (o2mSecondaryQueries roots).length = 1 ∧
    (∀ t, t ∈ runSecondaryQuery db (o2mQueryFilter (collectKeys roots))
        ↔ t ∈ db ∧ ∃ v, t.fk = some v ∧ v ∈ collectKeys roots) ∧
    (∀ i (hi : i < roots.length) (v : Int), (roots.get ⟨i, hi⟩).key = some v →
       (prefetchO2M roots db)[i]? = some (db.filter (fun t => t.fk = some v))) ∧
    (∀ i (hi : i < roots.length), (roots.get ⟨i, hi⟩).key = none →
       (prefetchO2M roots db)[i]? = some o2mDefaultValue) ∧
    (∀ i (hi : i < roots.length) (v : Int), (roots.get ⟨i, hi⟩).key = some v →
       (prefetchO2O roots db)[i]? = some ((db.filter (fun t => t.fk = some v)).getLast?)) ∧
    (∀ i (hi : i < roots.length), (roots.get ⟨i, hi⟩).key = none →
       (prefetchO2O roots db)[i]? = some o2oDefaultValue) := by
  have hmatch : ∀ (r : RootRow) (v : Int), r.key = some v →
      stitchMatches r = (fun t => decide (t.fk = some v)) := by
    intro r v hk
    funext t
    simp only [stitchMatches, hk]
  have hnomatch : ∀ (r : RootRow), r.key = none →
      ∀ t, stitchMatches r t = false := by
    intro r hk t
    rw [stitchMatches, hk]
  refine ⟨rfl, ?_, ?_, ?_, ?_, ?_⟩
  · intro t
    rw [runSecondaryQuery, List.mem_filter, o2mQueryFilter]
    cases hfk : t.fk with
    | none => simp
    | some v =>
      simp only [decide_eq_true_eq]
      constructor
      · rintro ⟨h1, h2⟩
        exact ⟨h1, v, rfl, h2⟩
      · rintro ⟨h1, v', hv', h2⟩
        cases hv'
        exact ⟨h1, h2⟩
  · intro i hi v hk
    rw [prefetchO2M, stitchO2M_getElem roots _ i hi,
      filter_runSecondaryQuery roots db _ v (List.get_mem roots i hi) hk,
      hmatch _ v hk]
  · intro i hi hk
    rw [prefetchO2M, stitchO2M_getElem roots _ i hi]
    rw [List.filter_eq_nil_iff.mpr (fun t _ => by
      rw [hnomatch _ hk t]
      exact Bool.false_ne_true)]
    rfl
  · intro i hi v hk
    rw [prefetchO2O, stitchO2O_getElem roots _ i hi,
      filter_runSecondaryQuery roots db _ v (List.get_mem roots i hi) hk,
      hmatch _ v hk]
  · intro i hi hk
    rw [prefetchO2O, stitchO2O_getElem roots _ i hi]
    rw [List.filter_eq_nil_iff.mpr (fun t _ => by
      rw [hnomatch _ hk t]
      exact Bool.false_ne_true)]
    rfl

/-- Concrete data for the C1 witness. -/
def c1Roots : List RootRow := [⟨some 1, 0⟩, ⟨none, 1⟩, ⟨some 1, 2⟩]

def c1Db : List TargetRow := [⟨some 1, 10⟩, ⟨some 2, 11⟩, ⟨none, 12⟩, ⟨some 1, 13⟩]

/-- C1 witness: three root rows with keys 1, NULL and 1, a target table with
foreign keys 1, 2, NULL and 1: one secondary query runs, root row 0 receives
exactly the targets with key 1, and the NULL-keyed root keeps the empty
default (`None` for the one-to-one variant). -/
theorem prefetch_o2m_correctness_witness :
    (o2mSecondaryQueries c1Roots).length = 1 ∧
    ((prefetchO2M c1Roots c1Db)[0]?
      = some (c1Db.filter (fun t => t.fk = some 1))) ∧
    ((prefetchO2M c1Roots c1Db)[1]? = some o2mDefaultValue) ∧
    ((prefetchO2O c1Roots c1Db)[1]? = some o2oDefaultValue) :=
  ⟨(prefetch_o2m_correctness c1Roots c1Db).1,
   (prefetch_o2m_correctness c1Roots c1Db).2.2.1 0 (by decide) 1 (by decide),
   (prefetch_o2m_correctness c1Roots c1Db).2.2.2.1 1 (by decide) (by decide),
   (prefetch_o2m_correctness c1Roots c1Db).2.2.2.2.2 1 (by decide) (by decide)⟩

theorem exclude_is_negation_of_filter_witness :
    (∃ e, (QSCond.mk [c2FilterExpr]).where_conditions = ([] : List SqlExpr) ++ [e] ∧
          (QSCond.mk [SqlExpr.not_ c2FilterExpr]).where_conditions
            = ([] : List SqlExpr) ++ [SqlExpr.not_ e]) ∧
    rowMatches ⟨[SqlExpr.not_ c2FilterExpr]⟩ c2Row = !(rowMatches ⟨[c2FilterExpr]⟩ c2Row) :=
  exclude_is_negation_of_filter c2Table ⟨[]⟩ c2Cond ⟨[c2FilterExpr]⟩
    ⟨[SqlExpr.not_ c2FilterExpr]⟩ c2Row (by with_unfolding_all rfl)
    (by with_unfolding_all rfl) (by rfl)

end ScrudgeOrm
